import Mathlib

/-!
Verification development for the routing and middleware core of the
`under` HTTP framework (Rust).  The definitions below are a shallow
embedding of the source files:

* `src/router/pattern.rs`   — template-to-pattern compilation
  (`PATTERN`, `regex_pattern`, `push_pattern`, `Pattern::new`);
* `under/src/router/mod.rs` — `Router` (`prepare`, `lookup`, the
  `Endpoint` impl `apply`, `default_endpoint`);
* `under/src/router/route.rs` — `Route`, `Route::matches`, and the
  `Path` registration helpers (`all` / `method` push onto the route
  vector);
* `src/request/fragment.rs` — `Fragment::new`, `Fragment::get`,
  `Fragment::name`, `Fragment::select`;
* `under/src/request/mod.rs` — `Request::fragment_str`;
* `src/middleware/mod.rs`   — `Next` and `Next::apply`.

Strings are modelled as `List Char`.  The regular expressions produced
by `regex_pattern` fall into a small fixed sublanguage (escaped literal
characters plus the six placeholder sub-patterns), so they are embedded
as an explicit element list together with the two anchor flags that
`regex_pattern` emits (the leading hat and the trailing dollar), and the
matcher below implements the leftmost-first greedy semantics of the
`regex` crate on that sublanguage.
-/

abbrev Str := List Char

/-- The placeholder types accepted by `push_pattern`:
`str`/`s`/`string`/no tag, `uint`, `int`, `path`, `uuid`, `oext`. -/
inductive FragType
| str
| uint
| int
| path
| uuid
| oext
deriving Repr, DecidableEq

/-- One element of a compiled pattern: an escaped literal character of
the template, or one placeholder capture group (`push_pattern` emits
exactly one capture group per placeholder, carrying the optional
name). -/
inductive Elem
| lit (c : Char)
| cap (name : Option Str) (ty : FragType)
deriving Repr, DecidableEq

/-- A compiled pattern, as produced by `regex_pattern`: the element
list, plus the two anchors that `regex_pattern` pushes (the buffer
starts with a hat and ends with a dollar). -/
structure Pattern where
  elems : List Elem
  anchorStart : Bool
  anchorEnd : Bool
deriving Repr, DecidableEq

/-- The capture names of a pattern, in group order, as reported by
`regex::Regex::capture_names` and stored by `Pattern::new` in
`match_keys`: group 0 (the whole match) is unnamed, then one entry per
placeholder. -/
def Pattern.matchKeys (p : Pattern) : List (Option Str) :=
  none :: p.elems.filterMap fun e =>
    match e with
    | .cap n _ => some n
    | .lit _ => none

/-! ### Template scanning

`regex_pattern` walks the template with `PATTERN.find_iter`, where
`PATTERN` is the fixed regex matching an opening brace, an optional
alphabetic name, an optional colon plus alphabetic type tag, and a
closing brace.  Text between matches is escaped and copied verbatim.
`parseAfterBrace` recognises one `PATTERN` match that starts at an
opening brace (returning how many characters follow the brace up to and
including the closing brace), and `scanTemplate` is the `find_iter`
loop: at a brace it tries the placeholder, otherwise the character is
literal text. -/

def isAlphaChar (c : Char) : Bool :=
  ('a' ≤ c && c ≤ 'z') || ('A' ≤ c && c ≤ 'Z')

/-- Recognise the remainder of a `PATTERN` match after the opening
brace: optional alphabetic name, optional colon plus non-empty
alphabetic type tag, closing brace.  Returns the name, the tag and the
number of consumed characters (after the brace). -/
def parseAfterBrace (rest : Str) : Option (Option Str × Option Str × Nat) :=
  let nm := rest.takeWhile isAlphaChar
  let name := if nm = [] then none else some nm
  match rest.drop nm.length with
  | '\x7d' :: _ => some (name, none, nm.length + 1)
  | ':' :: r2 =>
    let tg := r2.takeWhile isAlphaChar
    if tg = [] then none
    else
      match r2.drop tg.length with
      | '\x7d' :: _ => some (name, some tg, nm.length + 1 + tg.length + 1)
      | _ => none
  | _ => none

/-- A raw template piece: a literal character, or a placeholder with
its optional name and optional type tag (still as a string). -/
inductive Piece
| lit (c : Char)
| ph (name : Option Str) (tag : Option Str)
deriving Repr, DecidableEq

/-- The `PATTERN.find_iter` loop of `regex_pattern`: non-overlapping
placeholder matches, scanned left to right; everything else is literal
text.  The loop consumes at least one character per step, so it is
bounded by the remaining length, passed as structural fuel (the
zero-fuel case is unreachable when the fuel starts at the length). -/
def scanFuel : Nat → Str → List Piece
| _, [] => []
| 0, _ :: _ => []
| fuel + 1, '\x7b' :: rest =>
  match parseAfterBrace rest with
  | some (name, tag, n) => .ph name tag :: scanFuel fuel (rest.drop n)
  | none => .lit '\x7b' :: scanFuel fuel rest
| fuel + 1, c :: rest => .lit c :: scanFuel fuel rest

def scanTemplate (s : Str) : List Piece :=
  scanFuel s.length s

/-- The type-tag dispatch of `push_pattern`: the six known tags map to
their sub-pattern, no tag defaults to the string pattern, and any other
tag panics (modelled as an error). -/
def tagToType : Option Str → Except Str FragType
| none => .ok .str
| some tg =>
  if tg = "oext".data then .ok .oext
  else if tg = "int".data then .ok .int
  else if tg = "uint".data then .ok .uint
  else if tg = "path".data then .ok .path
  else if tg = "uuid".data then .ok .uuid
  else if tg = "str".data || tg = "s".data || tg = "string".data then .ok .str
  else .error ("unknown path pattern type ".data ++ tg)

/-- Translate the scanned pieces left to right, calling `push_pattern`
on each placeholder; the first unknown tag aborts (the Rust code
panics there). -/
def compilePieces : List Piece → Except Str (List Elem)
| [] => .ok []
| .lit c :: ps => (compilePieces ps).map (Elem.lit c :: ·)
| .ph name tag :: ps =>
  match tagToType tag with
  | .ok ty => (compilePieces ps).map (Elem.cap name ty :: ·)
  | .error e => .error e

/-- `regex_pattern`: scan the template, compile every piece, and anchor
the result at both ends (the hat pushed first and the dollar pushed
last). -/
def regexPattern (tpl : Str) : Except Str Pattern :=
  (compilePieces (scanTemplate tpl)).map fun es =>
    { elems := es, anchorStart := true, anchorEnd := true }

/-- `Pattern::new`, as used by `Path::create_pattern` at registration:
compile the template and unwrap.  The Rust code panics on a bad
template; that branch is unreachable for the templates used here and is
modelled by a dummy value. -/
def Pattern.new (tpl : Str) : Pattern :=
  match regexPattern tpl with
  | .ok p => p
  | .error _ => { elems := [], anchorStart := true, anchorEnd := true }

/-! ### Matching

`matchElems` runs a compiled element list against a whole string,
returning the captured substring of every placeholder in order (and
`none` for an optional-extension group that did not participate).  The
candidate splits of every greedy quantifier are tried longest first
with backtracking, which is the leftmost-first match semantics the
`regex` crate applies to these sub-patterns. -/

/-- All splits of `s` into a non-empty prefix and the remaining suffix,
longest prefix first (the preference order of a greedy one-or-more
quantifier). -/
def splitsDesc (s : Str) : List (Str × Str) :=
  (List.range s.length).map fun k => (s.take (s.length - k), s.drop (s.length - k))

/-- A capture of the `int` sub-pattern: an optional sign followed by
one or more decimal digits. -/
def isIntCapture : Str → Bool
| [] => false
| c :: rest =>
  if c = '+' || c = '-' then !rest.isEmpty && rest.all Char.isDigit
  else (c :: rest).all Char.isDigit

def isHexChar (c : Char) : Bool :=
  c.isDigit || ('a' ≤ c && c ≤ 'f') || ('A' ≤ c && c ≤ 'F')

/-- The fixed 36-character `UUID_PATTERN`: hyphens at offsets 8, 13,
18 and 23, the literal version digit 4 at offset 14, a variant
character at offset 19, hexadecimal digits elsewhere. -/
def isUuidCapture (p : Str) : Bool :=
  p.length = 36 &&
  (List.range 36).all fun i =>
    match p[i]? with
    | none => false
    | some c =>
      if i = 8 || i = 13 || i = 18 || i = 23 then c = '-'
      else if i = 14 then c = '4'
      else if i = 19 then c = '8' || c = '9' || c = 'a' || c = 'b' || c = 'A' || c = 'B'
      else isHexChar c

/-- Anchored matching of an element list against an entire string,
with capture extraction.  Literals must be consumed verbatim; every
capture type tries its candidate splits in the engine preference
order; the optional-extension group is preferred present, and absent
it contributes a `none` capture.  The `uuid` sub-pattern has a fixed
length, so it has exactly one candidate.  The character classes follow
the generated regexes: the string and extension classes exclude the
path separator, the `path` dot excludes the newline (the default dot
of the `regex` crate), digits and the uuid alphabet are literal. -/
def matchElems : List Elem → Str → Option (List (Option Str))
| [], s => if s.isEmpty then some [] else none
| .lit c :: es, s =>
  match s with
  | c2 :: rest => if c = c2 then matchElems es rest else none
  | [] => none
| .cap _ ty :: es, s =>
  match ty with
  | .str =>
    (splitsDesc s).findSome? fun pr =>
      if pr.1.all (fun c => c ≠ '/') then (matchElems es pr.2).map (some pr.1 :: ·) else none
  | .uint =>
    (splitsDesc s).findSome? fun pr =>
      if pr.1.all Char.isDigit then (matchElems es pr.2).map (some pr.1 :: ·) else none
  | .int =>
    (splitsDesc s).findSome? fun pr =>
      if isIntCapture pr.1 then (matchElems es pr.2).map (some pr.1 :: ·) else none
  | .path =>
    (splitsDesc s).findSome? fun pr =>
      if pr.1.all (fun c => c ≠ '\n') then (matchElems es pr.2).map (some pr.1 :: ·) else none
  | .uuid =>
    if isUuidCapture (s.take 36) then (matchElems es (s.drop 36)).map (some (s.take 36) :: ·)
    else none
  | .oext =>
    let present :=
      match s with
      | '.' :: rest =>
        (splitsDesc rest).findSome? fun pr =>
          if pr.1.all (fun c => c ≠ '/') then (matchElems es pr.2).map (some pr.1 :: ·) else none
      | _ => none
    match present with
    | some r => some r
    | none => (matchElems es s).map (none :: ·)

/-- Whether the element list matches the entire string. -/
def coreMatch (es : List Elem) (s : Str) : Bool :=
  (matchElems es s).isSome

/-- Whether the element list matches some prefix of the string (used
when the trailing anchor is absent). -/
def coreMatchSome (es : List Elem) (s : Str) : Bool :=
  (List.range (s.length + 1)).any fun k => coreMatch es (s.take k)

/-- `regex::Regex::is_match`-style search: the pattern may match any
substring, except that the anchors pin the match to the start and the
end of the haystack.  `regex_pattern` always emits both anchors, so for
compiled route patterns this is exact whole-path matching. -/
def Pattern.find (p : Pattern) (s : Str) : Bool :=
  let starts := if p.anchorStart then [s] else s.tails
  starts.any fun t =>
    if p.anchorEnd then coreMatch p.elems t else coreMatchSome p.elems t

/-! ### Requests, responses, fragments

`http::Method` is the request method; `Response` is reduced to its
status code, which is all the routing core inspects (`empty_500`
builds the generic server-error response).  Errors carried by
`anyhow::Error` are modelled as message strings. -/

inductive Method
| GET | POST | PUT | DELETE | HEAD | TRACE | CONNECT | PATCH | OPTIONS
| other (name : Str)
deriving Repr, DecidableEq

structure Response where
  status : Nat
deriving Repr, DecidableEq

def Response.emptyStatus (s : Nat) : Response := { status := s }

/-- `Response::empty_500`, the generic server-error response. -/
def Response.empty500 : Response := Response.emptyStatus 500

abbrev Err := Str

/-- `Fragment` (`src/request/fragment.rs`).  The Rust struct stores
byte ranges into `base` and slices `base` on access; the ranges are
modelled by the sliced substrings themselves.  `fragments_index` keeps
one entry per capture group of the route pattern, group 0 (the whole
match) included; `fragments_hash` maps each named group to its
capture. -/
structure Fragment where
  base : Str
  fragmentsIndex : List (Option Str)
  fragmentsHash : List (Str × Option Str)
deriving Repr, DecidableEq

/-- Insertion into the `HashMap` built by `collect`: a later pair with
the same key overwrites the earlier one. -/
def hashInsert (m : List (Str × Option Str)) (k : Str) (v : Option Str) :
    List (Str × Option Str) :=
  (k, v) :: m.filter fun kv => kv.1 ≠ k

/-- `regex::Regex::captures` on a compiled route pattern.  Every
pattern built by `regex_pattern` is anchored at both ends, so a
successful capture run spans the whole haystack: group 0 is the whole
input and the remaining groups are the placeholder captures. -/
def Pattern.captures (p : Pattern) (s : Str) : Option (Str × List (Option Str)) :=
  if p.anchorStart && p.anchorEnd then (matchElems p.elems s).map fun caps => (s, caps)
  else none

/-- `Fragment::new`: run the route pattern over the path; on a match,
record every group range in order (`fragments_index`), and collect the
named groups into the hash map by pairing `match_keys` with the group
ranges. -/
def Fragment.new (path : Str) (pat : Pattern) : Option Fragment :=
  (pat.captures path).map fun wc =>
    let fragmentsIndex := some wc.1 :: wc.2
    let pairs := (pat.matchKeys.zip fragmentsIndex).filterMap fun nv =>
      nv.1.map fun nn => (nn, nv.2)
    { base := path
      fragmentsIndex := fragmentsIndex
      fragmentsHash := pairs.foldl (fun m kv => hashInsert m kv.1 kv.2) [] }

/-- `Fragment::get`: positional access straight into
`fragments_index`; `none` for an out-of-range index or an absent
optional group. -/
def Fragment.get (f : Fragment) (i : Nat) : Option Str :=
  f.fragmentsIndex[i]?.bind id

/-- `Fragment::name`: access through the hash of named groups. -/
def Fragment.name (f : Fragment) (n : Str) : Option Str :=
  (f.fragmentsHash.find? fun kv => kv.1 = n).bind fun kv => kv.2

/-- A fragment key: `FragmentSelect` is implemented for positional
indices (`usize`) and for names. -/
inductive FragKey
| idx (i : Nat)
| name (n : Str)

/-- `Fragment::select`, dispatching on the key kind. -/
def Fragment.select (f : Fragment) : FragKey → Option Str
| .idx i => f.get i
| .name n => f.name n

/-- A request: the routing core reads the path and the method; the
extension store is modelled by its two routing-relevant entries, the
lazily attached `Fragment` and the matched route template (the
`Arc<Route>` extension, minus its endpoint). -/
structure Request where
  path : Str
  method : Method
  fragExt : Option Fragment
  routeExt : Option Str

def Request.fragmentExt (rq : Request) : Option Fragment := rq.fragExt

/-- `Request::fragment_str`: look through the `Fragment` extension, if
present, with `Fragment::select`. -/
def Request.fragmentStr (rq : Request) (k : FragKey) : Option Str :=
  (rq.fragmentExt).bind fun f => f.select k

abbrev Endpoint := Request → Except Err Response

/-! ### Middleware chain

A middleware is user code receiving the request and a `Next` view; per
its interface it inspects the request and either returns a result of
its own without calling `Next::apply` on the view (`halt`), or calls
`Next::apply` on the view with a (possibly modified) request exactly
once and post-processes the downstream result (`forward`).  The
choice, the forwarded request and the post-processing may all depend
on the incoming request. -/

inductive MWChoice
| halt (result : Except Err Response)
| forward (request : Request) (post : Except Err Response → Except Err Response)

abbrev MW := Request → MWChoice

def MWChoice.isHalt : MWChoice → Bool
| .halt _ => true
| .forward _ _ => false

/-- Run one middleware, giving it the request and the continuation
that applies the rest of the chain. -/
def MW.applyM (m : MW) (req : Request) (nxt : Request → Except Err Response) :
    Except Err Response :=
  match m req with
  | .halt r => r
  | .forward rq post => post (nxt rq)

/-- `Next`: the remaining middleware slice plus the terminal
endpoint. -/
structure Next where
  middleware : List MW
  endpoint : Endpoint

/-- The recursion of `Next::apply`: `split_first` on the middleware
slice; if a first middleware exists, invoke it with the request and
the view over the remaining slice and the same endpoint; otherwise
invoke the endpoint directly. -/
def Next.applyAux : List MW → Endpoint → Request → Except Err Response
| [], e, req => e req
| m :: rest, e, req => m.applyM req fun rq => Next.applyAux rest e rq

/-- `Next::apply`. -/
def Next.apply (n : Next) (req : Request) : Except Err Response :=
  Next.applyAux n.middleware n.endpoint req

/-! ### Routes and the router -/

/-- `Route` (`under/src/router/route.rs`): the registration template,
its compiled pattern, the optional method filter, and the endpoint. -/
structure Route where
  path : Str
  pattern : Pattern
  method : Option Method
  endpoint : Endpoint

/-- `Route::matches`: the filter passes when the route has no method
or its method equals the request method. -/
def Route.matches (r : Route) (m : Method) : Bool :=
  r.method.isNone || r.method == some m

/-- `Router` (`under/src/router/mod.rs`): the prepared `RegexSet`
(a list of the patterns it was built from), the registration-ordered
route vector, the middleware list, and the optional fallback
endpoint. -/
structure Router where
  regex : List Pattern
  routes : List Route
  middleware : List MW
  fallback : Option Endpoint

/-- `Router::default`: an empty `RegexSet`, no routes, no middleware,
no fallback. -/
def Router.default : Router :=
  { regex := [], routes := [], middleware := [], fallback := none }

/-- `Router::prepare`: rebuild the `RegexSet` from the patterns of the
currently registered routes. -/
def Router.prepare (r : Router) : Router :=
  { r with regex := r.routes.map Route.pattern }

/-- Route registration: `Path::all` / `Path::method` push the new
route onto the router's route vector. -/
def Router.addRoute (r : Router) (rt : Route) : Router :=
  { r with routes := r.routes ++ [rt] }

/-- `Router::with`: append a middleware. -/
def Router.withMiddleware (r : Router) (m : MW) : Router :=
  { r with middleware := r.middleware ++ [m] }

/-- `Router::fallback`: set the fallback endpoint. -/
def Router.setFallback (r : Router) (e : Endpoint) : Router :=
  { r with fallback := some e }

/-- `RegexSet::matches(...).into_iter()`: the indices of the patterns
that match the haystack, in ascending order. -/
def regexSetMatches (set : List Pattern) (s : Str) : List Nat :=
  ((set.enum.filter fun ip => ip.2.find s).map Prod.fst)

/-- `Router::lookup`: map the matching pattern indices to their
routes, keep those whose method filter passes, and take the last one
(`next_back`). -/
def Router.lookup (r : Router) (path : Str) (m : Method) : Option Route :=
  ((((regexSetMatches r.regex path).filterMap fun i => r.routes[i]?).filter
    fun rt => rt.matches m)).getLast?

/-- `default_endpoint` / `DEFAULT_ENDPOINT`: a `SyncEndpoint` that
ignores the request and returns `Response::empty_500()`
(`SyncEndpoint::apply` wraps the infallible response in `Ok`). -/
def defaultEndpoint : Endpoint := fun _ => .ok Response.empty500

/-- The extension insertions performed by `<Router as Endpoint>::apply`
when a route matched: attach the `Fragment` (when the pattern captures
the path) and the matched route. -/
def attachRouteExt (request : Request) (rt : Route) : Request :=
  let request :=
    match Fragment.new request.path rt.pattern with
    | some f => { request with fragExt := some f }
    | none => request
  { request with routeExt := some rt.path }

/-- `<Router as Endpoint>::apply`: look up the route, attach the
extensions on a hit, select the endpoint (route, else fallback, else
`default_endpoint`), and drive the middleware chain with it; the
chain result is returned to the caller as is. -/
def Router.applyE (r : Router) (request : Request) : Except Err Response :=
  let route := r.lookup request.path request.method
  let request :=
    match route with
    | some rt => attachRouteExt request rt
    | none => request
  let endpoint :=
    ((route.map Route.endpoint).or r.fallback).getD defaultEndpoint
  Next.apply { middleware := r.middleware, endpoint := endpoint } request

/-! ### Reachable router states

The router is built through `Router::default` followed by route
registrations (`Path::all` / `Path::method`), middleware additions
(`Router::with`), fallback configuration (`Router::fallback`) and
`Router::prepare`; no operation ever removes a route. -/

inductive Reachable : Router → Prop
| dflt : Reachable Router.default
| add {r : Router} (rt : Route) : Reachable r → Reachable (r.addRoute rt)
| prep {r : Router} : Reachable r → Reachable r.prepare
| mw {r : Router} (m : MW) : Reachable r → Reachable (r.withMiddleware m)
| fb {r : Router} (e : Endpoint) : Reachable r → Reachable (r.setFallback e)

/-! ### Concrete instances

The routers, routes and fragments used by the `router/mod.rs` tests
and the documented examples. -/

def noopEndpoint : Endpoint := fun _ => Except.ok (Response.emptyStatus 204)

def userIdTpl : Str := "/user/\x7bid\x7d".data

def userMeTpl : Str := "/user/@me".data

def userIdRoute : Route :=
  { path := userIdTpl, pattern := Pattern.new userIdTpl,
    method := some Method.GET, endpoint := noopEndpoint }

def userMeRoute : Route :=
  { path := userMeTpl, pattern := Pattern.new userMeTpl,
    method := some Method.GET, endpoint := noopEndpoint }

/-- The router with `/user/\x7bid\x7d` registered before `/user/@me`,
before preparation. -/
def userRouterBase : Router :=
  (Router.default.addRoute userIdRoute).addRoute userMeRoute

def userRouter : Router := userRouterBase.prepare

def usersUintTpl : Str := "/users/\x7bid:uint\x7d".data

def betaPat : Pattern := Pattern.new "/beta/\x7bid\x7d".data

def gammaPat : Pattern := Pattern.new "/gamma/\x7ball:path\x7d".data

def usersOextPat : Pattern := Pattern.new "/users/\x7bid:uint\x7d\x7bext:oext\x7d".data

def betaFrag : Option Fragment := Fragment.new "/beta/4444".data betaPat

/-- A request for `/beta/4444` carrying the fragment extension the
router attaches for the route `/beta/\x7bid\x7d`. -/
def betaReq : Request :=
  { path := "/beta/4444".data, method := Method.GET, fragExt := betaFrag, routeExt := none }

def frobTpl : Str := "/x/\x7bid:frob\x7d".data

/-- A router whose single middleware fails without forwarding. -/
def boomRouter : Router :=
  { regex := [], routes := [],
    middleware := [fun _ => MWChoice.halt (Except.error "boom".data)], fallback := none }

def rootReq : Request :=
  { path := "/".data, method := Method.GET, fragExt := none, routeExt := none }

def omegaRoute : Route :=
  { path := "/omega".data, pattern := Pattern.new "/omega".data,
    method := some Method.GET, endpoint := noopEndpoint }

/-- The tags accepted by `push_pattern` (spec section 6). -/
def knownTags : List Str :=
  ["string".data, "s".data, "str".data, "uint".data,
   "int".data, "path".data, "uuid".data, "oext".data]

/-! ## Helper lemmas and claim theorems -/

theorem find_eq_coreMatch (pt : Pattern) (h1 : pt.anchorStart = true)
    (h2 : pt.anchorEnd = true) (s : Str) :
    pt.find s = coreMatch pt.elems s := by
  simp [Pattern.find, h1, h2]

theorem setMatches_recover (full : List Route) (p : Str) :
    ∀ (rts : List Route) (n : Nat),
      (∀ (k : Nat) (rt : Route), rts[k]? = some rt → full[n + k]? = some rt) →
      (((List.enumFrom n (rts.map Route.pattern)).filter fun ip => ip.2.find p).map
          Prod.fst).filterMap (fun i => full[i]?)
        = rts.filter fun rt => rt.pattern.find p
  | [], _, _ => rfl
  | a :: tl, n, h => by
    have h0 : full[n]? = some a := by simpa using h 0 a (by simp)
    have htl : ∀ (k : Nat) (rt : Route), tl[k]? = some rt → full[n + 1 + k]? = some rt := by
      intro k rt hk
      have hfull := h (k + 1) rt (by simpa using hk)
      have harr : n + (k + 1) = n + 1 + k := by omega
      rwa [harr] at hfull
    have ih := setMatches_recover full p tl (n + 1) htl
    by_cases hf : a.pattern.find p
    · simp [List.enumFrom, List.filter, hf, List.filterMap, h0, ih]
    · simp [List.enumFrom, List.filter, hf, List.filterMap, h0, ih]

theorem lookup_eq_filter (r : Router) (hp : r.regex = r.routes.map Route.pattern)
    (p : Str) (m : Method) :
    r.lookup p m
      = (r.routes.filter fun rt => rt.pattern.find p && rt.matches m).getLast? := by
  have hrec := setMatches_recover r.routes p r.routes 0 (by intro k rt hk; simpa using hk)
  unfold Router.lookup regexSetMatches
  rw [hp]
  rw [show List.enum (r.routes.map Route.pattern)
        = List.enumFrom 0 (r.routes.map Route.pattern) from rfl]
  rw [hrec, List.filter_filter]
  simp [Bool.and_comm]

theorem filter_getLast?_eq_some_iff {α : Type} (g : α → Bool) (l : List α) (x : α) :
    (l.filter g).getLast? = some x ↔
      ∃ i, l[i]? = some x ∧ g x = true ∧
        ∀ (j : Nat) (y : α), i < j → l[j]? = some y → g y = false := by
  induction l using List.reverseRecOn with
  | nil => simp
  | append_singleton l a ih =>
    rw [List.filter_append]
    by_cases hga : g a = true
    · have hfa : List.filter g [a] = [a] := by simp [hga]
      rw [hfa, List.getLast?_concat]
      constructor
      · rintro hax
        have hax2 : a = x := by injection hax
        subst hax2
        refine ⟨l.length, List.getElem?_concat_length l a, hga, ?_⟩
        intro j y hj hy
        rw [List.getElem?_eq_none (by simp; omega)] at hy
        exact absurd hy (by simp)
      · rintro ⟨i, hi, hgx, hafter⟩
        by_cases hil : i < l.length
        · exfalso
          have hcontra := hafter l.length a hil (List.getElem?_concat_length l a)
          rw [hcontra] at hga
          exact absurd hga (by simp)
        · have hie : i = l.length := by
            by_contra hne
            rw [List.getElem?_eq_none (by simp; omega)] at hi
            exact absurd hi (by simp)
          subst hie
          rw [List.getElem?_concat_length l a] at hi
          injection hi with hi
          rw [hi]
    · have hga2 : g a = false := by simpa using hga
      have hfa : List.filter g [a] = [] := by simp [hga2]
      rw [hfa, List.append_nil, ih]
      constructor
      · rintro ⟨i, hi, hgx, hafter⟩
        have hil : i < l.length := by
          by_contra hge
          rw [List.getElem?_eq_none (by omega)] at hi
          exact absurd hi (by simp)
        refine ⟨i, by rw [List.getElem?_append_left hil]; exact hi, hgx, ?_⟩
        intro j y hj hy
        by_cases hjl : j < l.length
        · rw [List.getElem?_append_left hjl] at hy
          exact hafter j y hj hy
        · by_cases hje : j = l.length
          · subst hje
            rw [List.getElem?_concat_length l a] at hy
            injection hy with hy
            subst hy
            exact hga2
          · rw [List.getElem?_eq_none (by simp; omega)] at hy
            exact absurd hy (by simp)
      · rintro ⟨i, hi, hgx, hafter⟩
        have hil : i < l.length := by
          by_contra hge
          by_cases hie : i = l.length
          · subst hie
            rw [List.getElem?_concat_length l a] at hi
            injection hi with hi
            subst hi
            rw [hga2] at hgx
            exact absurd hgx (by simp)
          · rw [List.getElem?_eq_none (by simp; omega)] at hi
            exact absurd hi (by simp)
        refine ⟨i, by rw [List.getElem?_append_left hil] at hi; exact hi, hgx, ?_⟩
        intro j y hj hy
        have hjl2 : j < l.length := (List.getElem?_eq_some_iff.1 hy).1
        refine hafter j y hj ?_
        rw [List.getElem?_append_left hjl2]
        exact hy

theorem filter_getLast?_eq_none_iff {α : Type} (g : α → Bool) (l : List α) :
    (l.filter g).getLast? = none ↔ ∀ (i : Nat) (y : α), l[i]? = some y → g y = false := by
  rw [List.getLast?_eq_none_iff, List.filter_eq_nil_iff]
  constructor
  · intro h i y hy
    rcases List.getElem?_eq_some_iff.1 hy with ⟨hlt, hget⟩
    simpa using h y (hget ▸ List.getElem_mem hlt)
  · intro h y hy
    rcases List.getElem_of_mem hy with ⟨i, hlt, hget⟩
    have := h i y (by rw [List.getElem?_eq_some_iff]; exact ⟨hlt, hget⟩)
    simp [this]

/-- Claim C1: for a prepared router, lookup considers exactly the
routes whose compiled pattern matches the full path, keeps those whose
method filter is none or equal to the request method, and returns the
survivor with the largest registration index, or none when no route
survives; in particular registering the template for `/user/` plus an
id placeholder and then the literal `/user/@me` makes lookup of
`/user/@me` return the second route. -/
theorem lookup_last_registered_wins :
    (∀ (r : Router), r.regex = r.routes.map Route.pattern →
      (r.routes.all fun rt => rt.pattern.anchorStart && rt.pattern.anchorEnd) = true →
      ∀ (p : Str) (m : Method),
      (∀ rt : Route, r.lookup p m = some rt ↔
        ∃ i : Nat, r.routes[i]? = some rt
          ∧ coreMatch rt.pattern.elems p = true ∧ rt.matches m = true
          ∧ ∀ (j : Nat) (rt2 : Route), i < j → r.routes[j]? = some rt2 →
              (coreMatch rt2.pattern.elems p && rt2.matches m) = false)
      ∧ (r.lookup p m = none ↔
          ∀ (i : Nat) (rt : Route), r.routes[i]? = some rt →
            (coreMatch rt.pattern.elems p && rt.matches m) = false))
    ∧ userRouter.lookup "/user/@me".data Method.GET = some userMeRoute := by
  constructor
  · intro r hp ha p m
    have hanch : ∀ rt ∈ r.routes, rt.pattern.find p = coreMatch rt.pattern.elems p := by
      intro rt hrt
      have := List.all_eq_true.1 ha rt hrt
      exact find_eq_coreMatch rt.pattern (by simp_all) (by simp_all) p
    have hfc : (r.routes.filter fun rt => rt.pattern.find p && rt.matches m)
        = r.routes.filter fun rt => coreMatch rt.pattern.elems p && rt.matches m := by
      apply List.filter_congr
      intro rt hrt
      rw [hanch rt hrt]
    have hlf := lookup_eq_filter r hp p m
    rw [hfc] at hlf
    constructor
    · intro rt
      rw [hlf, filter_getLast?_eq_some_iff]
      constructor
      · rintro ⟨i, hi, hg, hafter⟩
        have hg12 : coreMatch rt.pattern.elems p = true ∧ rt.matches m = true := by
          simpa using hg
        exact ⟨i, hi, hg12.1, hg12.2, hafter⟩
      · rintro ⟨i, hi, hg1, hg2, hafter⟩
        exact ⟨i, hi, by simp [hg1, hg2], hafter⟩
    · rw [hlf, filter_getLast?_eq_none_iff]
  · rfl

/-- Witness for C1 at the concrete two-route router: the characterising
property instantiated at index 1 (the later route) for `/user/@me`. -/
theorem lookup_last_registered_wins_witness :
    userRouter.lookup "/user/@me".data Method.GET = some userMeRoute := by
  have h := (lookup_last_registered_wins.1 userRouter rfl rfl "/user/@me".data Method.GET).1
  refine (h userMeRoute).2 ⟨1, rfl, rfl, rfl, ?_⟩
  intro j rt2 hj h2
  rw [List.getElem?_eq_none (l := userRouter.routes) (by
    simp [userRouter, userRouterBase, Router.prepare, Router.addRoute, Router.default]
    omega)] at h2
  exact absurd h2 (by simp)

/-- Claim C2: applying a chain view with a non-empty remaining list
invokes the first middleware with the request and a new view over the
rest plus the same terminal endpoint; an empty view invokes the
terminal endpoint directly; a middleware that returns without
forwarding short-circuits everything after it (the result does not
depend on the later middleware or on the endpoint); and a forwarding
middleware receives the actual downstream result before returning. -/
theorem next_apply_chain_spec :
    (∀ (m : MW) (ms : List MW) (e : Endpoint) (req : Request),
        Next.apply { middleware := m :: ms, endpoint := e } req
          = m.applyM req fun rq => Next.apply { middleware := ms, endpoint := e } rq)
    ∧ (∀ (e : Endpoint) (req : Request),
        Next.apply { middleware := [], endpoint := e } req = e req)
    ∧ (∀ (pre : List MW) (m : MW) (suf1 suf2 : List MW)
        (e1 e2 : Endpoint) (req : Request),
        (∀ rq : Request, (m rq).isHalt = true) →
        Next.apply { middleware := pre ++ m :: suf1, endpoint := e1 } req
          = Next.apply { middleware := pre ++ m :: suf2, endpoint := e2 } req)
    ∧ (∀ (m : MW) (rq : Request) (po : Except Err Response → Except Err Response)
        (ms : List MW) (e : Endpoint) (req : Request),
        m req = .forward rq po →
        Next.apply { middleware := m :: ms, endpoint := e } req
          = po (Next.apply { middleware := ms, endpoint := e } rq)) := by
  refine ⟨fun m ms e req => rfl, fun e req => rfl, ?_, ?_⟩
  · intro pre m suf1 suf2 e1 e2 req hhalt
    induction pre generalizing req with
    | nil =>
      show m.applyM req _ = m.applyM req _
      unfold MW.applyM
      cases hm : m req with
      | halt r => rfl
      | forward rq po =>
        have := hhalt req
        rw [hm] at this
        exact absurd this (by simp [MWChoice.isHalt])
    | cons m0 rest ih =>
      show m0.applyM req _ = m0.applyM req _
      unfold MW.applyM
      cases hm0 : m0 req with
      | halt r => rfl
      | forward rq po => exact congrArg po (ih rq)
  · intro m rq po ms e req hm
    show m.applyM req _ = _
    unfold MW.applyM
    rw [hm]
    rfl

/-- Witness for C2: a two-middleware chain where the first forwards
the request unchanged and the second always halts with a 401 response;
the chain result does not depend on the terminal endpoint (it never
executes). -/
theorem next_apply_chain_spec_witness :
    Next.apply
      { middleware :=
          [fun rq => MWChoice.forward rq id,
           fun _ => MWChoice.halt (Except.ok (Response.emptyStatus 401))],
        endpoint := noopEndpoint } rootReq
      = Next.apply
        { middleware :=
            [fun rq => MWChoice.forward rq id,
             fun _ => MWChoice.halt (Except.ok (Response.emptyStatus 401))],
          endpoint := fun _ => Except.error "unreached".data } rootReq :=
  next_apply_chain_spec.2.2.1
    [fun rq => MWChoice.forward rq id]
    (fun _ => MWChoice.halt (Except.ok (Response.emptyStatus 401)))
    [] [] noopEndpoint (fun _ => Except.error "unreached".data) rootReq
    (fun _ => rfl)

/-- Counterexample to claim C3 as stated: a middleware error is not
converted into a response at the Router boundary — the failing chain
result escapes `apply` as an error value. -/
theorem router_apply_error_escapes_cex :
    boomRouter.applyE rootReq = Except.error "boom".data
    ∧ (boomRouter.applyE rootReq).isOk = false :=
  ⟨rfl, rfl⟩

/-- Claim C3 (amended): apply selects the matched route's endpoint,
else the configured fallback, else the hard-coded default endpoint
that returns the generic 500 response; an error returned by a
middleware (or, through the chain, by the endpoint) is returned to the
caller of apply as an error, not converted into a response. -/
theorem router_apply_endpoint_selection :
    (∀ (r : Router) (req : Request),
        r.lookup req.path req.method = none → r.fallback = none → r.middleware = [] →
        r.applyE req = .ok Response.empty500)
    ∧ (∀ (r : Router) (req : Request) (f : Endpoint),
        r.lookup req.path req.method = none → r.fallback = some f → r.middleware = [] →
        r.applyE req = f req)
    ∧ (∀ (r : Router) (req : Request) (rt : Route),
        r.lookup req.path req.method = some rt → r.middleware = [] →
        r.applyE req = rt.endpoint (attachRouteExt req rt))
    ∧ (∀ (r : Router) (req : Request) (e : Err) (rest : List MW),
        r.middleware = (fun _ => MWChoice.halt (Except.error e)) :: rest →
        r.applyE req = .error e) := by
  refine ⟨?_, ?_, ?_, ?_⟩
  · intro r req h1 h2 h3
    simp [Router.applyE, h1, h2, h3, Next.apply, Next.applyAux, defaultEndpoint]
  · intro r req f h1 h2 h3
    simp [Router.applyE, h1, h2, h3, Next.apply, Next.applyAux]
  · intro r req rt h1 h3
    simp [Router.applyE, h1, h3, Next.apply, Next.applyAux]
  · intro r req e rest h
    simp [Router.applyE, h, Next.apply, Next.applyAux, MW.applyM]

/-- Witness for the amended C3: on the default router (no routes, no
fallback, no middleware) every request gets the default generic 500
response. -/
theorem router_apply_endpoint_selection_witness :
    Router.default.applyE rootReq = .ok Response.empty500 :=
  router_apply_endpoint_selection.1 Router.default rootReq rfl rfl rfl

/-- Claim C8: lookup after `prepare` depends only on the route set, so
calling `prepare` twice with an unchanged route set yields identical
lookup results. -/
theorem prepare_idempotent_lookup :
    (∀ (r1 r2 : Router), r1.routes = r2.routes →
        ∀ (p : Str) (m : Method), r1.prepare.lookup p m = r2.prepare.lookup p m)
    ∧ (∀ (r : Router) (p : Str) (m : Method),
        r.prepare.prepare.lookup p m = r.prepare.lookup p m) := by
  constructor
  · intro r1 r2 h p m
    simp [Router.lookup, Router.prepare, h]
  · intro r p m
    rfl

/-- Witness for C8: the user router prepared once and twice gives the
same lookup result for `/user/@me`. -/
theorem prepare_idempotent_lookup_witness :
    userRouterBase.prepare.lookup "/user/@me".data Method.GET
      = userRouter.prepare.lookup "/user/@me".data Method.GET :=
  prepare_idempotent_lookup.1 userRouterBase userRouter rfl "/user/@me".data Method.GET

theorem mem_of_getLast?_eq_some {α : Type} {l : List α} {x : α}
    (h : l.getLast? = some x) : x ∈ l := by
  rcases List.mem_getLast?_eq_getLast (show x ∈ l.getLast? from h) with ⟨hne, hx⟩
  exact hx ▸ List.getLast_mem hne

theorem fst_lt_of_mem_enumFrom {α : Type} :
    ∀ (l : List α) (n : Nat) (ip : Nat × α), ip ∈ l.enumFrom n → ip.1 < n + l.length
  | [], _, ip, h => by simp at h
  | a :: tl, n, ip, h => by
    rcases List.mem_cons.1 h with h1 | h2
    · subst h1
      simp
    · have := fst_lt_of_mem_enumFrom tl (n + 1) ip h2
      simp at this ⊢
      omega

theorem regexSetMatches_lt (set : List Pattern) (p : Str) :
    ∀ i ∈ regexSetMatches set p, i < set.length := by
  intro i hi
  unfold regexSetMatches at hi
  rcases List.mem_map.1 hi with ⟨ip, hmem, hfst⟩
  have hip := (List.mem_filter.1 hmem).1
  have := fst_lt_of_mem_enumFrom set 0 ip hip
  omega

theorem foldl_addRoute_regex (rts : List Route) (r : Router) :
    (rts.foldl Router.addRoute r).regex = r.regex := by
  induction rts generalizing r with
  | nil => rfl
  | cons a tl ih => simp [List.foldl, Router.addRoute, ih]

theorem foldl_addRoute_routes (rts : List Route) (r : Router) :
    (rts.foldl Router.addRoute r).routes = r.routes ++ rts := by
  induction rts generalizing r with
  | nil => simp
  | cons a tl ih => simp [List.foldl, Router.addRoute, ih]

/-- Claim C9 (implicit): lookup only returns routes registered before
the most recent `prepare`; on a never-prepared router lookup is always
none, however many routes were registered, and a route registered
after the last `prepare` is never returned. -/
theorem lookup_requires_prepare :
    (∀ (rts : List Route) (p : Str) (m : Method),
        (rts.foldl Router.addRoute Router.default).lookup p m = none)
    ∧ (∀ (r : Router) (rts : List Route) (p : Str) (m : Method) (rt : Route),
        (rts.foldl Router.addRoute r.prepare).lookup p m = some rt →
        ∃ i : Nat, i < r.routes.length ∧ r.routes[i]? = some rt) := by
  constructor
  · intro rts p m
    have hreg : (rts.foldl Router.addRoute Router.default).regex = [] :=
      foldl_addRoute_regex rts Router.default
    simp [Router.lookup, regexSetMatches, hreg]
  · intro r rts p m rt h
    unfold Router.lookup at h
    have hmem := mem_of_getLast?_eq_some h
    rcases (List.mem_filter.1 hmem) with ⟨hmem2, _⟩
    rcases List.mem_filterMap.1 hmem2 with ⟨i, hidx, hget⟩
    have hreg : (rts.foldl Router.addRoute r.prepare).regex
        = r.routes.map Route.pattern := foldl_addRoute_regex rts r.prepare
    have hlen : i < r.routes.length := by
      have := regexSetMatches_lt _ p i (by rwa [hreg] at hidx)
      simpa using this
    refine ⟨i, hlen, ?_⟩
    rw [foldl_addRoute_routes rts r.prepare] at hget
    have hpr : (Router.prepare r).routes = r.routes := rfl
    rw [hpr, List.getElem?_append_left hlen] at hget
    exact hget

/-- Witness for C9: with the user router prepared and a route for
`/omega` added afterwards, lookup of `/user/@me` returns a route that
was already registered (at index 1) before the `prepare`. -/
theorem lookup_requires_prepare_witness :
    (([omegaRoute].foldl Router.addRoute userRouterBase.prepare).lookup
        "/user/@me".data Method.GET = some userMeRoute)
    ∧ ∃ i : Nat, i < userRouterBase.routes.length
        ∧ userRouterBase.routes[i]? = some userMeRoute :=
  ⟨rfl, lookup_requires_prepare.2 userRouterBase [omegaRoute]
    "/user/@me".data Method.GET userMeRoute rfl⟩

theorem reachable_regex_le (r : Router) (h : Reachable r) :
    r.regex.length ≤ r.routes.length := by
  induction h with
  | dflt => simp [Router.default]
  | add rt _ ih => simp [Router.addRoute]; omega
  | prep _ ih => simp [Router.prepare]
  | mw m _ ih => simpa [Router.withMiddleware] using ih
  | fb e _ ih => simpa [Router.setFallback] using ih

/-- Claim C10 (implicit): for any reachable router state, every index
the combined matcher reports during lookup is a valid index into the
current route vector (so the indexing in `Router::lookup` cannot
panic): `prepare` builds the set from the routes present at that
moment and registration only appends. -/
theorem lookup_indices_in_bounds (r : Router) (h : Reachable r) (p : Str) :
    ∀ i ∈ regexSetMatches r.regex p,
      i < r.routes.length ∧ ∃ rt : Route, r.routes[i]? = some rt := by
  intro i hi
  have hlt : i < r.regex.length := regexSetMatches_lt r.regex p i hi
  have hle := reachable_regex_le r h
  have hlen : i < r.routes.length := by omega
  refine ⟨hlen, r.routes[i], ?_⟩
  exact List.getElem?_eq_some_iff.2 ⟨hlen, rfl⟩

/-- Witness for C10: the prepared user router is reachable, and the
matcher index 1 reported for `/user/@me` is in bounds. -/
theorem lookup_indices_in_bounds_witness :
    1 < userRouter.routes.length ∧ ∃ rt : Route, userRouter.routes[1]? = some rt :=
  lookup_indices_in_bounds userRouter
    (Reachable.prep (Reachable.add userMeRoute (Reachable.add userIdRoute Reachable.dflt)))
    "/user/@me".data 1 (by decide)

theorem regexPattern_ok_elim (tpl : Str) (pt : Pattern)
    (h : regexPattern tpl = .ok pt) :
    pt.anchorStart = true ∧ pt.anchorEnd = true := by
  unfold regexPattern at h
  cases hc : compilePieces (scanTemplate tpl) with
  | ok es =>
    rw [hc] at h
    injection h with h
    subst h
    exact ⟨rfl, rfl⟩
  | error e =>
    rw [hc] at h
    exact absurd h (by simp [Except.map])

/-- Claim C4: compilation anchors every pattern at both ends, so a
compiled route pattern matches only the full path, never a strict
prefix or suffix; for the uint example template, the pattern matches
`/users/42` and matches neither `/users/abc` nor `/users/42/extra`. -/
theorem compiled_pattern_anchored :
    (∀ (tpl : Str) (pt : Pattern), regexPattern tpl = .ok pt →
        pt.anchorStart = true ∧ pt.anchorEnd = true
        ∧ ∀ s : Str, pt.find s = coreMatch pt.elems s)
    ∧ (regexPattern usersUintTpl).isOk = true
    ∧ (Pattern.new usersUintTpl).find "/users/42".data = true
    ∧ (Pattern.new usersUintTpl).find "/users/abc".data = false
    ∧ (Pattern.new usersUintTpl).find "/users/42/extra".data = false := by
  refine ⟨?_, rfl, rfl, rfl, rfl⟩
  intro tpl pt h
  rcases regexPattern_ok_elim tpl pt h with ⟨h1, h2⟩
  exact ⟨h1, h2, fun s => find_eq_coreMatch pt h1 h2 s⟩

/-- Witness for C4 at the uint template: the compiled pattern carries
both anchors and its search coincides with whole-path matching. -/
theorem compiled_pattern_anchored_witness :
    (Pattern.new usersUintTpl).anchorStart = true
    ∧ (Pattern.new usersUintTpl).anchorEnd = true
    ∧ (Pattern.new usersUintTpl).find "/users/42/extra".data
        = coreMatch (Pattern.new usersUintTpl).elems "/users/42/extra".data := by
  have h := compiled_pattern_anchored.1 usersUintTpl (Pattern.new usersUintTpl) rfl
  exact ⟨h.1, h.2.1, h.2.2 "/users/42/extra".data⟩

theorem tagToType_error_iff (tag : Str) :
    (∃ e, tagToType (some tag) = .error e) ↔ tag ∉ knownTags := by
  simp only [tagToType, knownTags]
  split_ifs with h1 h2 h3 h4 h5 h6
  · simp_all
  · simp_all
  · simp_all
  · simp_all
  · simp_all
  · have h7 : tag = "str".data ∨ tag = "s".data ∨ tag = "string".data := by
      simp only [Bool.or_eq_true, decide_eq_true_eq] at h6
      tauto
    constructor
    · rintro ⟨e, he⟩
      exact absurd he (by simp)
    · intro hmem
      exfalso
      apply hmem
      rcases h7 with h | h | h <;> simp [h]
  · have h7 : ¬(tag = "str".data ∨ tag = "s".data ∨ tag = "string".data) := by
      simp only [Bool.or_eq_true, decide_eq_true_eq] at h6
      tauto
    constructor
    · intro _
      simp only [List.mem_cons, List.mem_singleton]
      push_neg
      refine ⟨?_, ?_, ?_, ?_, ?_, ?_, ?_, ?_⟩ <;> simp_all
    · intro _
      exact ⟨_, rfl⟩

theorem compilePieces_error_iff :
    ∀ ps : List Piece,
      (∃ e, compilePieces ps = .error e) ↔
        ∃ name tag, Piece.ph name (some tag) ∈ ps ∧ tag ∉ knownTags
  | [] => by simp [compilePieces]
  | .lit c :: ps => by
    have ih := compilePieces_error_iff ps
    constructor
    · rintro ⟨e, he⟩
      unfold compilePieces at he
      cases hc : compilePieces ps with
      | ok es => rw [hc] at he; exact absurd he (by simp [Except.map])
      | error e2 =>
        rcases ih.1 ⟨e2, hc⟩ with ⟨name, tag, hmem, hk⟩
        exact ⟨name, tag, List.mem_cons_of_mem _ hmem, hk⟩
    · rintro ⟨name, tag, hmem, hk⟩
      rcases List.mem_cons.1 hmem with hx | hmem2
      · exact absurd hx (by simp)
      · rcases ih.2 ⟨name, tag, hmem2, hk⟩ with ⟨e, he⟩
        exact ⟨e, by unfold compilePieces; rw [he]; rfl⟩
  | .ph name0 tag0 :: ps => by
    have ih := compilePieces_error_iff ps
    constructor
    · rintro ⟨e, he⟩
      unfold compilePieces at he
      cases ht : tagToType tag0 with
      | ok ty =>
        rw [ht] at he
        cases hc : compilePieces ps with
        | ok es => rw [hc] at he; exact absurd he (by simp [Except.map])
        | error e2 =>
          rcases ih.1 ⟨e2, hc⟩ with ⟨name, tag, hmem, hk⟩
          exact ⟨name, tag, List.mem_cons_of_mem _ hmem, hk⟩
      | error e2 =>
        cases tag0 with
        | none => exact absurd ht (by simp [tagToType])
        | some tg =>
          have hk := (tagToType_error_iff tg).1 ⟨e2, ht⟩
          exact ⟨name0, tg, List.mem_cons_self _ _, hk⟩
    · rintro ⟨name, tag, hmem, hk⟩
      rcases List.mem_cons.1 hmem with hx | hmem2
      · have : name0 = name ∧ tag0 = some tag := by
          constructor <;> injection hx <;> simp_all
        rcases this with ⟨_, htag⟩
        subst htag
        rcases (tagToType_error_iff tag).2 hk with ⟨e, he⟩
        exact ⟨e, by unfold compilePieces; rw [he]⟩
      · rcases ih.2 ⟨name, tag, hmem2, hk⟩ with ⟨e, he⟩
        refine ⟨?_, ?_⟩
        case _ =>
          cases ht : tagToType tag0 with
          | ok ty => exact e
          | error e2 => exact e2
        case _ =>
          unfold compilePieces
          cases ht : tagToType tag0 with
          | ok ty => rw [he]; rfl
          | error e2 => rfl

/-- Claim C6: an unknown placeholder type tag is a fatal setup-time
error: compiling any template containing a placeholder whose tag is
outside the known set fails fast at compile time, and a template all
of whose placeholder tags are known compiles successfully (so nothing
is deferred to request or lookup time). -/
theorem unknown_tag_fails_fast (tpl : Str) :
    ((∃ name tag, Piece.ph name (some tag) ∈ scanTemplate tpl ∧ tag ∉ knownTags) →
      ¬(regexPattern tpl).isOk = true)
    ∧ ((∀ name tag, Piece.ph name (some tag) ∈ scanTemplate tpl → tag ∈ knownTags) →
      (regexPattern tpl).isOk = true) := by
  constructor
  · rintro ⟨name, tag, hmem, hk⟩
    rcases (compilePieces_error_iff (scanTemplate tpl)).2 ⟨name, tag, hmem, hk⟩ with ⟨e, he⟩
    simp [regexPattern, he, Except.map, Except.isOk, Except.toBool]
  · intro h
    cases hc : compilePieces (scanTemplate tpl) with
    | ok es => simp [regexPattern, hc, Except.map, Except.isOk, Except.toBool]
    | error e =>
      exfalso
      rcases (compilePieces_error_iff (scanTemplate tpl)).1 ⟨e, hc⟩ with ⟨name, tag, hmem, hk⟩
      exact hk (h name tag hmem)

/-- Witness for C6: the template with the unknown tag `frob` fails to
compile, fast. -/
theorem unknown_tag_fails_fast_witness :
    ¬(regexPattern frobTpl).isOk = true :=
  (unknown_tag_fails_fast frobTpl).1
    ⟨some "id".data, "frob".data, by decide, by decide⟩

theorem fragment_new_elim (pat : Pattern) (path : Str) (f : Fragment)
    (h : Fragment.new path pat = some f) :
    ∃ caps, matchElems pat.elems path = some caps
      ∧ f.base = path
      ∧ f.fragmentsIndex = some path :: caps
      ∧ f.fragmentsHash =
          ((pat.matchKeys.zip (some path :: caps)).filterMap fun nv =>
            nv.1.map fun nn => (nn, nv.2)).foldl (fun m kv => hashInsert m kv.1 kv.2) [] := by
  unfold Fragment.new Pattern.captures at h
  by_cases ha : (pat.anchorStart && pat.anchorEnd) = true
  · rw [if_pos ha] at h
    cases hm : matchElems pat.elems path with
    | none =>
      rw [hm] at h
      exact absurd h (by simp)
    | some caps =>
      rw [hm] at h
      simp only [Option.map_some'] at h
      injection h with h
      subst h
      exact ⟨caps, rfl, rfl, rfl, rfl⟩
  · rw [if_neg ha] at h
    exact absurd h (by simp)

theorem mem_foldl_hashInsert :
    ∀ (ps : List (Str × Option Str)) (m : List (Str × Option Str)) (kv : Str × Option Str),
      kv ∈ ps.foldl (fun acc q => hashInsert acc q.1 q.2) m →
      kv ∈ m ∨ kv.1 ∈ ps.map Prod.fst
  | [], _, _, h => .inl h
  | q :: tl, m, kv, h => by
    rcases mem_foldl_hashInsert tl (hashInsert m q.1 q.2) kv h with h1 | h2
    · unfold hashInsert at h1
      rcases List.mem_cons.1 h1 with h1eq | hmem
      · right
        rw [h1eq]
        simp
      · left
        exact List.mem_of_mem_filter hmem
    · right
      simp [h2]

/-- Claim C7 (amended): capture slot 0 is the whole-path match, so for
every matched route and path, fragment index 0 yields the full path
(not none); placeholder captures are addressed from index 1 on, and an
out-of-range index yields none. -/
theorem fragment_get_zero_whole_match (pat : Pattern) (path : Str) (f : Fragment)
    (h : Fragment.new path pat = some f) :
    f.get 0 = some path
    ∧ (∀ i : Nat, f.fragmentsIndex.length ≤ i → f.get i = none) := by
  rcases fragment_new_elim pat path f h with ⟨caps, _, _, hidx, _⟩
  constructor
  · simp [Fragment.get, hidx]
  · intro i hi
    simp [Fragment.get, List.getElem?_eq_none hi]

/-- Counterexample to claim C7 as stated: on the route for `/beta/`
plus an id placeholder and the path `/beta/4444`, requesting fragment
index 0 through the request interface yields the whole matched path,
not none. -/
theorem fragment_get_zero_cex :
    betaReq.fragmentStr (FragKey.idx 0) = some "/beta/4444".data := by decide

/-- Witness for the amended C7: the concrete fragment of `/beta/4444`
returns the full path at index 0. -/
theorem fragment_get_zero_whole_match_witness :
    ((Fragment.new "/beta/4444".data betaPat).map fun f => f.get 0)
      = some (some "/beta/4444".data) := by
  cases hf : Fragment.new "/beta/4444".data betaPat with
  | none => exact absurd hf (by decide)
  | some f =>
    have h := (fragment_get_zero_whole_match betaPat "/beta/4444".data f hf).1
    simp [h]

/-- Claim C5: fragment extraction returns exactly the substrings the
route pattern captured (1-indexed positions), none for an unknown name
or an out-of-range index, and none for an optional slot that did not
participate; concretely, `/beta/4444` gives fragment `id` = `4444`,
`/gamma/a/b/c` gives fragment `all` = `a/b/c`, and an unmatched
optional-extension slot yields none. -/
theorem fragment_extraction_spec :
    (∀ (pat : Pattern) (path : Str) (f : Fragment) (caps : List (Option Str)),
        Fragment.new path pat = some f →
        matchElems pat.elems path = some caps →
        (∀ i : Nat, f.get (i + 1) = caps[i]?.bind id)
        ∧ (∀ n : Str, some n ∉ pat.matchKeys → f.name n = none))
    ∧ ((Fragment.new "/beta/4444".data betaPat).map (fun f =>
        (f.name "id".data, f.get 1, f.name "zzz".data, f.get 5))
        = some (some "4444".data, some "4444".data, none, none))
    ∧ ((Fragment.new "/gamma/a/b/c".data gammaPat).map (fun f => f.name "all".data)
        = some (some "a/b/c".data))
    ∧ ((Fragment.new "/users/42".data usersOextPat).map (fun f =>
        (f.name "ext".data, f.get 2))
        = some (none, none)) := by
  refine ⟨?_, by decide, by decide, by decide⟩
  intro pat path f caps h hm
  rcases fragment_new_elim pat path f h with ⟨caps2, hm2, _, hidx, hhash⟩
  rw [hm] at hm2
  injection hm2 with hm2
  subst hm2
  constructor
  · intro i
    simp [Fragment.get, hidx]
  · intro n hn
    unfold Fragment.name
    have hfind : f.fragmentsHash.find? (fun kv => kv.1 = n) = none := by
      rw [List.find?_eq_none]
      intro kv hkv
      rcases mem_foldl_hashInsert _ [] kv (hhash ▸ hkv) with h0 | h1
      · simp at h0
      · rcases List.mem_map.1 h1 with ⟨pair, hpair, hfst⟩
        rcases List.mem_filterMap.1 hpair with ⟨nv, hnv, hmap⟩
        cases hnn : nv.1 with
        | none =>
          rw [hnn] at hmap
          exact absurd hmap (by simp)
        | some nn =>
          rw [hnn] at hmap
          simp only [Option.map_some'] at hmap
          injection hmap with hmap2
          have hkeys : nv.1 ∈ pat.matchKeys := (List.of_mem_zip hnv).1
          simp only [decide_eq_true_eq]
          intro hne
          apply hn
          have hpn : pair.1 = nn := by rw [← hmap2]
          rw [← hne, ← hfst, hpn]
          exact hnn ▸ hkeys
    rw [hfind]
    rfl

/-- Witness for C5: the extraction facts applied to the fragment of
`/beta/4444`: the unknown name `zzz` yields none. -/
theorem fragment_extraction_spec_witness :
    ((Fragment.new "/beta/4444".data betaPat).map fun f => f.name "zzz".data)
      = some none := by
  cases hf : Fragment.new "/beta/4444".data betaPat with
  | none => exact absurd hf (by decide)
  | some f =>
    have h := (fragment_extraction_spec.1 betaPat "/beta/4444".data f
      [some "4444".data] hf (by decide)).2 "zzz".data (by decide)
    simp [h]
